import Mathlib

/-! Line selection of `tail.go`

A shallow embedding of `getLines` and `main` from `tail.go`, and theorems about
which lines they select.

Conventions of the embedding.

* Go `int` values are `Int`; no arithmetic written in `tail.go` can overflow
  (indices stay between `-1` and a slice length), so no wrap-around is
  modelled. The size computation inside `make` can overflow; `make` tests it.
* A Go slice of strings is a `List String`; `append(s, x)` is `s ++ [x]`. The
  `nil` slice and the empty slice are both `[]` (they have the same length and
  no elements).
* A Go `error` is an `Option GoError`, `none` being `nil`.
* A run-time panic (index out of range, `make` with a capacity out of range)
  is the `Outcome.panic` result; every slice access of the source is a checked
  access in the embedding.
* A 64-bit platform is assumed: a `string` value takes 16 bytes and a machine
  word has 64 bits. The number of bytes the Go run-time is able to allocate
  for one slice (its constant `maxAlloc`, or less on a machine with less memory)
  is not part of `tail.go`; it is the parameter `maxAlloc` of the embedding.
* The operating system and `bufio.Scanner` are outside `tail.go`. A path is
  resolved by a `FileSystem`; an opened file is described by what its scanner
  delivers: the tokens of the successive `Scan()` calls and the final `Err()`.
* Go strings are taken to be valid UTF-8 text, so that a `String` of Unicode
  characters stands for them.
-/

namespace Tail

/-! ## Results and the environment -/

/-- A Go error value (its message). -/
abbrev GoError := String

/-- Result of running a piece of Go code: a run-time panic or a returned value. -/
inductive Outcome (α : Type) where
  | panic : String → Outcome α
  | ret : α → Outcome α
  deriving Repr, DecidableEq

/-- Sequencing: a panic aborts everything after it. -/
def Outcome.andThen {α β : Type} (o : Outcome α) (k : α → Outcome β) : Outcome β :=
  match o with
  | .panic m => .panic m
  | .ret a => k a

/-- An opened file as `bufio.Scanner` with `bufio.ScanLines` sees it: `tokens`
are the values of `scanner.Text()` after each successful `scanner.Scan()`, in
order, and `scanErr` is `scanner.Err()` once `Scan()` has returned false. -/
structure File where
  tokens : List String
  scanErr : Option GoError
  deriving Repr, DecidableEq

/-- The behaviour of `os.Open`: an error, or the opened file. -/
abbrev FileSystem := String → Except GoError File

/-- The three values returned by `getLines`. -/
structure Result where
  lines : List String
  total : Int
  err : Option GoError
  deriving Repr, DecidableEq

/-! ## Slice primitives -/

/-- Checked read `s[i]`: `none` stands for the index-out-of-range panic. -/
def index (s : List String) (i : Int) : Option String :=
  if 0 ≤ i ∧ i < (s.length : Int) then s[i.toNat]? else none

/-- Size in bytes of one `string` element of a slice (pointer and length). -/
def stringSize : Int := 16

/-- Allocation `make([]string, 0, n)`, as the run-time's `makeslice` decides it:
a run-time panic when the capacity is negative, when the size in bytes
`stringSize * n` overflows a 64-bit word, or when that size exceeds the
run-time's allocation limit `maxAlloc`; otherwise an empty slice. -/
def make (maxAlloc : Nat) (n : Int) : Outcome (List String) :=
  if n < 0 ∨ 2 ^ 64 ≤ stringSize * n ∨ (maxAlloc : Int) < stringSize * n then
    .panic "makeslice: cap out of range"
  else .ret []

/-- Checked simultaneous assignment `s[i], s[j] = s[j], s[i]`. -/
def swap (s : List String) (i j : Int) : Option (List String) :=
  match index s j, index s i with
  | some b, some a => some ((s.set i.toNat b).set j.toNat a)
  | _, _ => none

/-! ## `getLines` -/

/-- The scan loop `for scanner.Scan() { all = append(all, scanner.Text()) }`,
run over the tokens the scanner still has to deliver. -/
def scanAll : List String → List String → List String
  | [], all => all
  | t :: rest, all => scanAll rest (all ++ [t])

/-- The head loops: `for i := 0; i < bound; i++ { lines = append(lines, all[i]);
if len(lines) == num { break } }`, entered at index `i`. The source has two
copies of this loop, one with `bound = num` and one with `bound = total`. -/
def headLoop (all : List String) (num bound : Int) (i : Int) (lines : List String) :
    Outcome (List String) :=
  if i < bound then
    match index all i with
    | none => .panic "index out of range"
    | some s =>
      let lines := lines ++ [s]
      if (lines.length : Int) = num then .ret lines
      else headLoop all num bound (i + 1) lines
  else .ret lines
termination_by (bound - i).toNat
decreasing_by omega

/-- The tail loop: `for i := len(all) - 1; i > -1; i-- { lines = append(lines,
all[i]); if len(lines) == num { break } }`, entered at index `i`. -/
def tailLoop (all : List String) (num : Int) (i : Int) (lines : List String) :
    Outcome (List String) :=
  if i > -1 then
    match index all i with
    | none => .panic "index out of range"
    | some s =>
      let lines := lines ++ [s]
      if (lines.length : Int) = num then .ret lines
      else tailLoop all num (i - 1) lines
  else .ret lines
termination_by (i + 1).toNat
decreasing_by omega

/-- The loop of the `reverse` closure:
`for i, j := 0, len(*s)-1; i < j; i, j = i+1, j-1 { swap }`, entered at `i`, `j`. -/
def reverseLoop (s : List String) (i j : Int) : Outcome (List String) :=
  if i < j then
    match swap s i j with
    | none => .panic "index out of range"
    | some s' => reverseLoop s' (i + 1) (j - 1)
  else .ret s
termination_by (j - i).toNat
decreasing_by omega

/-- The closure `reverse` of `getLines`: in-place reversal of `*s`. -/
def reverse (s : List String) : Outcome (List String) :=
  reverseLoop s 0 ((s.length : Int) - 1)

/-- The function `getLines(num, head, path)` of `tail.go`, run against the file
system `fs` on a run-time with allocation limit `maxAlloc`. -/
def getLines (maxAlloc : Nat) (fs : FileSystem) (num : Int) (head : Bool) (path : String) :
    Outcome Result :=
  let total : Int := 0
  match fs path with
  | .error err => .ret ⟨[], total, some err⟩
  | .ok file =>
    let all := scanAll file.tokens []
    match file.scanErr with
    | some err => .ret ⟨[], total, some err⟩
    | none =>
      let total : Int := all.length
      (make maxAlloc num).andThen fun lines =>
        if head then
          if total ≥ num then
            (headLoop all num num 0 lines).andThen fun lines => .ret ⟨lines, total, none⟩
          else
            (headLoop all num total 0 lines).andThen fun lines => .ret ⟨lines, total, none⟩
        else
          (tailLoop all num ((all.length : Int) - 1) lines).andThen fun lines =>
            (reverse lines).andThen fun lines => .ret ⟨lines, total, none⟩

/-! ## `main` -/

/-- The command-line flags after `flag.Parse()`: `-h`, `-n`, `-p`/`-pretty`,
`-N` and `-H`. -/
structure Flags where
  h : Bool
  n : Int
  p : Bool
  printLines : Bool
  head : Bool
  deriving Repr, DecidableEq

/-- How a run of the program ends: `main` returns, `os.Exit(code)` is called,
or a panic stops the process. -/
inductive Status where
  | returned : Status
  | exited : Int → Status
  | panicked : String → Status
  deriving Repr, DecidableEq

/-- A finished run: the texts written to standard output by the successive
`fmt.Println` calls (each with its final newline), and how the run ended.
Standard error is not modelled. -/
structure Run where
  stdout : List String
  status : Status
  deriving Repr, DecidableEq

/-- The function `printHelp`, called when `stdout` has already been written:
two lines on standard output (`flag.PrintDefaults` writes to standard error),
then `os.Exit(0)`. -/
def printHelp (stdout : List String) : Run :=
  ⟨stdout ++ ["Print tail (or head) n lines of one or more files\n",
      "Example: tail -n 10 file1.txt file2.txt\n"], .exited 0⟩

/-- The call `strings.Repeat(s, count)`. -/
def strRepeat (s : String) (count : Nat) : String :=
  String.join (List.replicate count s)

/-- The verb `%-3d`: decimal, padded with blanks on the right to width 3. -/
def fmtLeft3 (i : Int) : String :=
  let d := toString i
  d ++ String.mk (List.replicate (3 - d.length) (Char.ofNat 32))

/-- The predicate `unicode.IsSpace`, by code point. -/
def isSpace (c : Char) : Bool :=
  let n := c.toNat
  (9 ≤ n ∧ n ≤ 13) ∨ n = 32 ∨ n = 0x85 ∨ n = 0xA0 ∨ n = 0x1680 ∨
    (0x2000 ≤ n ∧ n ≤ 0x200A) ∨ n = 0x2028 ∨ n = 0x2029 ∨ n = 0x202F ∨
    n = 0x205F ∨ n = 0x3000

/-- The call `strings.TrimSpace(s)`. -/
def trimSpace (s : String) : String :=
  String.mk (((s.toList.dropWhile isSpace).reverse.dropWhile isSpace).reverse)

/-- The loop of `write` over the lines, entered at index `i` with `rest` the
lines from index `i` on: one `WriteString` per line. -/
def writeLines (printLines : Bool) : List String → Int → String → String
  | [], _, builder => builder
  | l :: rest, i, builder =>
    writeLines printLines rest (i + 1)
      (builder ++ (if printLines then fmtLeft3 (i + 1) ++ " " ++ l ++ "\n" else l ++ "\n"))

/-- The closure `write` of `main`: the text it hands to standard output through
`fmt.Println`. -/
def write (flags : Flags) (fname : String) (head : Bool) (lines : List String)
    (total : Int) : String :=
  let builder := ""
  let headStr := if head then "first" else "last"
  let builder := if flags.p then builder ++ (strRepeat "-" 50 ++ "\n") else builder
  let builder := builder ++ ("File " ++ fname ++ " showing " ++ headStr ++ " " ++
    toString (lines.length : Int) ++ " of " ++ toString total ++ " lines\n")
  let builder := if flags.p then builder ++ (strRepeat "-" 50 ++ "\n") else builder
  let builder := writeLines flags.printLines lines 0 builder
  trimSpace builder ++ "\n"

/-- The loop of `main` over the paths still to process, `stdout` being what has
been printed so far: `getLines`, `panic(err)` on an error, `write` otherwise. -/
def mainLoop (maxAlloc : Nat) (fs : FileSystem) (flags : Flags) :
    List String → List String → Run
  | [], stdout => ⟨stdout, .returned⟩
  | arg :: rest, stdout =>
    match getLines maxAlloc fs flags.n flags.head arg with
    | .panic m => ⟨stdout, .panicked m⟩
    | .ret ⟨_, _, some err⟩ => ⟨stdout, .panicked err⟩
    | .ret ⟨lines, total, none⟩ =>
      mainLoop maxAlloc fs flags rest (stdout ++ [write flags arg flags.head lines total])

/-- The function `main` of `tail.go`, after `flag.Parse()` has produced `flags`
and the positional arguments `args`. -/
def main (maxAlloc : Nat) (fs : FileSystem) (flags : Flags) (args : List String) : Run :=
  if flags.h = true then printHelp []
  else if args.length = 0 then
    printHelp ["No files specified. Exiting with usage information\n", "\n"]
  else mainLoop maxAlloc fs flags args []

/-! ## Vocabulary of the statements -/

/-- The last `k` elements of a sequence, in their original order. -/
def lastN (k : Nat) (l : List String) : List String :=
  l.drop (l.length - k)

/-- Whether `getLines` does not hand back a result for `path`: it returns a
non-nil error or does not return at all. -/
def fails (maxAlloc : Nat) (fs : FileSystem) (flags : Flags) (path : String) : Bool :=
  match getLines maxAlloc fs flags.n flags.head path with
  | .ret ⟨_, _, none⟩ => false
  | _ => true

/-- The formatted block of `path`: what `write` prints for the result of
`getLines` on it (empty when `getLines` gives no result). -/
def block (maxAlloc : Nat) (fs : FileSystem) (flags : Flags) (path : String) : String :=
  match getLines maxAlloc fs flags.n flags.head path with
  | .ret ⟨lines, total, none⟩ => write flags path flags.head lines total
  | _ => ""

/-- Number of lines the tail loop collects: `num` when `1 ≤ num ≤ len`, and
otherwise every line (also when `num ≤ 0`, where the break test never fires). -/
def tailCount (num : Int) (len : Nat) : Nat :=
  if 1 ≤ num ∧ num ≤ (len : Int) then num.toNat else len

/-- Invariant of the in-place reversal of `s`: after `i` swaps the outer `i`
positions on each side hold the reversed content, the middle is untouched. -/
def RevInv (s cur : List String) (i : Nat) : Prop :=
  cur.length = s.length ∧
    ∀ k : Nat, cur[k]? = if k < i ∨ s.length ≤ k + i then s.reverse[k]? else s[k]?

/-- The capacity `n` is one that `make` accepts on a run-time with allocation
limit `maxAlloc`: not negative, and `stringSize * n` bytes neither overflow a
64-bit word nor exceed `maxAlloc`. -/
def capacityFits (maxAlloc : Nat) (n : Int) : Prop :=
  0 ≤ n ∧ stringSize * n < 2 ^ 64 ∧ stringSize * n ≤ (maxAlloc : Int)

/-- The allocation limit used in the examples: `2 ^ 48` bytes, the limit of the
Go run-time on 64-bit Linux. -/
def exampleMaxAlloc : Nat := 2 ^ 48

/-- The largest value of a 64-bit `int`, the largest count `-n` can pass. -/
def maxInt : Int := 9223372036854775807

/-- A file system for the examples: `five.txt` holds the lines a to e,
`empty.txt` is empty, the scan of `long.txt` fails after one line, and no other
path can be opened. -/
def exampleFS : FileSystem := fun path =>
  if path = "five.txt" then .ok ⟨["a", "b", "c", "d", "e"], none⟩
  else if path = "empty.txt" then .ok ⟨[], none⟩
  else if path = "long.txt" then .ok ⟨["a"], some "bufio.Scanner: token too long"⟩
  else .error "open: no such file or directory"

/-! ## Lemmas about the loops -/

theorem scanAll_eq (ts acc : List String) : scanAll ts acc = acc ++ ts := by
  induction ts generalizing acc with
  | nil => simp [scanAll]
  | cons t rest ih => simp [scanAll, ih]

theorem index_natCast (s : List String) (k : Nat) : index s (k : Int) = s[k]? := by
  unfold index
  by_cases h : k < s.length
  · simp [h]
  · have h2 : s.length ≤ k := Nat.le_of_not_lt h
    simp [h, List.getElem?_eq_none h2]

theorem index_neg (s : List String) (i : Int) (h : i < 0) : index s i = none := by
  unfold index
  have : ¬ (0 ≤ i ∧ i < (s.length : Int)) := by omega
  simp [this]

theorem take_succ_of_lt (l : List String) (k : Nat) (h : k < l.length) :
    l.take k ++ [l[k]] = l.take (k + 1) := by
  rw [List.take_succ, List.getElem?_eq_getElem h]
  rfl

/-- The head loop entered at index `k` with the first `k` lines collected ends
with the first `b` lines, when `b` exceeds neither `len(all)` nor `num`. -/
theorem headLoop_take (all : List String) (num : Int) (b : Nat)
    (hb : b ≤ all.length) (hnum : (b : Int) ≤ num) :
    ∀ (d k : Nat), b - k = d → k ≤ b →
      headLoop all num (b : Int) (k : Int) (all.take k) = .ret (all.take b) := by
  intro d
  induction d with
  | zero =>
    intro k hd hk
    have hkb : k = b := by omega
    subst hkb
    rw [headLoop]
    simp
  | succ d ih =>
    intro k hd hk
    have hlt : k < b := by omega
    have hlen : k < all.length := by omega
    rw [headLoop]
    have h1 : ((k : Int) < (b : Int)) := by exact_mod_cast hlt
    simp only [h1, if_true, index_natCast, List.getElem?_eq_getElem hlen,
      take_succ_of_lt all k hlen]
    by_cases hbr : ((all.take (k + 1)).length : Int) = num
    · simp only [hbr, if_true]
      have : (all.take (k + 1)).length = k + 1 := by
        simp [List.length_take]; omega
      have hk1 : k + 1 = b := by
        rw [this] at hbr
        omega
      rw [hk1]
    · simp only [hbr, if_false]
      have := ih (k + 1) (by omega) (by omega)
      simpa using this

theorem tailLoop_take (all : List String) (num : Int) :
    ∀ (d m : Nat), all.length - m = d → m ≤ all.length → (num ≤ 0 ∨ (m : Int) < num) →
      tailLoop all num ((all.length : Int) - 1 - (m : Int)) (all.reverse.take m)
        = .ret (all.reverse.take (tailCount num all.length)) := by
  intro d
  induction d with
  | zero =>
    intro m hd hm hinv
    have hmL : m = all.length := by omega
    subst hmL
    rw [tailLoop]
    have h1 : ¬ ((all.length : Int) - 1 - (all.length : Int) > -1) := by omega
    have hc : tailCount num all.length = all.length := by
      unfold tailCount
      have : ¬ (1 ≤ num ∧ num ≤ (all.length : Int)) := by omega
      simp [this]
    simp only [h1, if_false, hc]
  | succ d ih =>
    intro m hd hm hinv
    have hlt : m < all.length := by omega
    rw [tailLoop]
    have h1 : ((all.length : Int) - 1 - (m : Int) > -1) := by omega
    have hidx : ((all.length : Int) - 1 - (m : Int)) = ((all.length - 1 - m : Nat) : Int) := by
      omega
    have hltr : m < all.reverse.length := by simpa using hlt
    have hrev : all[all.length - 1 - m]? = some all.reverse[m] := by
      rw [← List.getElem?_reverse hlt, List.getElem?_eq_getElem]
    have hstep : all.reverse.take m ++ [all.reverse[m]]
        = all.reverse.take (m + 1) := take_succ_of_lt all.reverse m hltr
    simp only [h1, if_true]
    rw [hidx, index_natCast, hrev]
    simp only [hstep]
    have hlen : (all.reverse.take (m + 1)).length = m + 1 := by
      simp [List.length_take]; omega
    by_cases hbr : ((all.reverse.take (m + 1)).length : Int) = num
    · simp only [hbr, if_true]
      rw [hlen] at hbr
      have hc : tailCount num all.length = m + 1 := by
        unfold tailCount
        have : (1 ≤ num ∧ num ≤ (all.length : Int)) := by omega
        simp only [this, and_self, if_true]
        omega
      rw [hc]
    · simp only [hbr, if_false]
      rw [hlen] at hbr
      have := ih (m + 1) (by omega) (by omega) (by omega)
      have hi : ((all.length - 1 - m : Nat) : Int) - 1
          = (all.length : Int) - 1 - ((m + 1 : Nat) : Int) := by
        omega
      rw [hi]
      exact this


theorem swap_natCast (s : List String) (i j : Nat) (a b : String)
    (ha : s[i]? = some a) (hb : s[j]? = some b) :
    swap s (i : Int) (j : Int) = some ((s.set i b).set j a) := by
  unfold swap
  simp [index_natCast, ha, hb]

theorem reverse_getElem? (s : List String) (k : Nat) (hk : k < s.length) :
    s.reverse[k]? = s[s.length - 1 - k]? :=
  List.getElem?_reverse hk

theorem RevInv.step {s cur : List String} {i : Nat} (h : RevInv s cur i)
    (hlt : 2 * i + 1 < s.length) (a b : String)
    (ha : cur[i]? = some a) (hb : cur[s.length - 1 - i]? = some b) :
    RevInv s ((cur.set i b).set (s.length - 1 - i) a) (i + 1) := by
  obtain ⟨hlen, hk⟩ := h
  refine ⟨by simp [hlen], ?_⟩
  intro k
  have hi_mid : ¬ (i < i ∨ s.length ≤ i + i) := by omega
  have hj_mid : ¬ (s.length - 1 - i < i ∨ s.length ≤ s.length - 1 - i + i) := by omega
  have hai : s[i]? = some a := by
    have := hk i
    rw [if_neg hi_mid] at this
    rw [← this, ha]
  have hbj : s[s.length - 1 - i]? = some b := by
    have := hk (s.length - 1 - i)
    rw [if_neg hj_mid] at this
    rw [← this, hb]
  rw [List.getElem?_set]
  by_cases h1 : s.length - 1 - i = k
  · subst h1
    have hc : (s.length - 1 - i < i + 1 ∨ s.length ≤ s.length - 1 - i + (i + 1)) := by omega
    have hl : s.length - 1 - i < (cur.set i b).length := by simp [hlen]; omega
    rw [if_pos rfl, if_pos hl, if_pos hc, reverse_getElem? s _ (by omega)]
    have : s.length - 1 - (s.length - 1 - i) = i := by omega
    rw [this, hai]
  · rw [if_neg h1, List.getElem?_set]
    by_cases h2 : i = k
    · subst h2
      have hc : (i < i + 1 ∨ s.length ≤ i + (i + 1)) := by omega
      have hl : i < cur.length := by omega
      rw [if_pos rfl, if_pos hl, if_pos hc, reverse_getElem? s _ (by omega), hbj]
    · rw [if_neg h2, hk k]
      by_cases hc : k < i ∨ s.length ≤ k + i
      · have hc2 : k < i + 1 ∨ s.length ≤ k + (i + 1) := by omega
        rw [if_pos hc, if_pos hc2]
      · have hc2 : ¬ (k < i + 1 ∨ s.length ≤ k + (i + 1)) := by omega
        rw [if_neg hc, if_neg hc2]

theorem RevInv.done {s cur : List String} {i : Nat} (h : RevInv s cur i)
    (hge : s.length ≤ 2 * i + 1) : cur = s.reverse := by
  obtain ⟨_, hk⟩ := h
  apply List.ext_getElem?
  intro k
  rw [hk k]
  by_cases hc : k < i ∨ s.length ≤ k + i
  · rw [if_pos hc]
  · rw [if_neg hc]
    have hki : k = i := by omega
    have hlt : k < s.length := by omega
    rw [reverse_getElem? s k hlt]
    have : s.length - 1 - k = k := by omega
    rw [this]

theorem reverseLoop_spec (s : List String) :
    ∀ (d : Nat) (cur : List String) (i : Nat), s.length - i ≤ d → RevInv s cur i →
      reverseLoop cur (i : Int) ((s.length : Int) - 1 - (i : Int)) = .ret s.reverse := by
  intro d
  induction d with
  | zero =>
    intro cur i hd hinv
    rw [reverseLoop]
    have h1 : ¬ ((i : Int) < (s.length : Int) - 1 - (i : Int)) := by omega
    rw [if_neg h1, hinv.done (by omega)]
  | succ d ih =>
    intro cur i hd hinv
    rw [reverseLoop]
    by_cases h1 : (i : Int) < (s.length : Int) - 1 - (i : Int)
    · rw [if_pos h1]
      have hlt : 2 * i + 1 < s.length := by omega
      have hlen := hinv.1
      have hi : i < cur.length := by omega
      have hj : s.length - 1 - i < cur.length := by omega
      have hjc : (s.length : Int) - 1 - (i : Int) = ((s.length - 1 - i : Nat) : Int) := by omega
      rw [hjc, swap_natCast cur i (s.length - 1 - i) cur[i] cur[s.length - 1 - i]
        (List.getElem?_eq_getElem hi) (List.getElem?_eq_getElem hj)]
      have hnext := hinv.step hlt cur[i] cur[s.length - 1 - i]
        (List.getElem?_eq_getElem hi) (List.getElem?_eq_getElem hj)
      have := ih _ (i + 1) (by omega) hnext
      have hjn : ((s.length - 1 - i : Nat) : Int) - 1
          = (s.length : Int) - 1 - ((i + 1 : Nat) : Int) := by omega
      simp only [hjn]
      exact this
    · rw [if_neg h1, hinv.done (by omega)]

theorem RevInv.init (s : List String) : RevInv s s 0 := by
  refine ⟨rfl, ?_⟩
  intro k
  by_cases hk : s.length ≤ k
  · have hc : k < 0 ∨ s.length ≤ k + 0 := by omega
    rw [if_pos hc, List.getElem?_eq_none hk, List.getElem?_eq_none (by simpa using hk)]
  · have hc : ¬ (k < 0 ∨ s.length ≤ k + 0) := by omega
    rw [if_neg hc]

/-- The closure `reverse` never goes out of range and reverses its slice. -/
theorem reverse_eq (s : List String) : reverse s = .ret s.reverse := by
  unfold reverse
  have := reverseLoop_spec s s.length s 0 (by omega) (RevInv.init s)
  simpa using this



/-! ## What `getLines` returns -/

theorem make_of_fits (maxAlloc : Nat) (num : Int) (hfit : capacityFits maxAlloc num) :
    make maxAlloc num = .ret [] := by
  obtain ⟨h0, h1, h2⟩ := hfit
  unfold make
  rw [if_neg (by omega)]

theorem make_of_not_fits (maxAlloc : Nat) (num : Int) (hfit : ¬ capacityFits maxAlloc num) :
    make maxAlloc num = .panic "makeslice: cap out of range" := by
  unfold make
  rw [if_pos]
  unfold capacityFits at hfit
  omega

theorem capacityFits_zero (maxAlloc : Nat) : capacityFits maxAlloc 0 := by
  unfold capacityFits stringSize
  omega

theorem not_capacityFits_maxInt (maxAlloc : Nat) : ¬ capacityFits maxAlloc maxInt := by
  unfold capacityFits stringSize maxInt
  omega

theorem getLines_open_error (maxAlloc : Nat) (fs : FileSystem) (num : Int) (head : Bool)
    (path : String) (e : GoError) (hopen : fs path = .error e) :
    getLines maxAlloc fs num head path = .ret ⟨[], 0, some e⟩ := by
  simp [getLines, hopen]

theorem getLines_scan_error (maxAlloc : Nat) (fs : FileSystem) (num : Int) (head : Bool)
    (path : String) (f : File) (e : GoError) (hopen : fs path = .ok f)
    (hscan : f.scanErr = some e) :
    getLines maxAlloc fs num head path = .ret ⟨[], 0, some e⟩ := by
  simp [getLines, hopen, hscan]

/-- On a readable file a count that `make` rejects ends `getLines` in a panic. -/
theorem getLines_not_fits (maxAlloc : Nat) (fs : FileSystem) (num : Int) (head : Bool)
    (path : String) (f : File) (hopen : fs path = .ok f) (hscan : f.scanErr = none)
    (hfit : ¬ capacityFits maxAlloc num) :
    getLines maxAlloc fs num head path = .panic "makeslice: cap out of range" := by
  simp [getLines, hopen, hscan, make_of_not_fits maxAlloc num hfit, Outcome.andThen]

/-- Head direction on a readable file, for a count that `make` accepts. -/
theorem getLines_head (maxAlloc : Nat) (fs : FileSystem) (num : Int) (path : String)
    (f : File) (hopen : fs path = .ok f) (hscan : f.scanErr = none)
    (hfit : capacityFits maxAlloc num) :
    getLines maxAlloc fs num true path
      = .ret ⟨f.tokens.take (min num.toNat f.tokens.length), f.tokens.length, none⟩ := by
  have hnum : 0 ≤ num := hfit.1
  simp only [getLines, hopen, hscan, scanAll_eq, List.nil_append,
    make_of_fits maxAlloc num hfit, Outcome.andThen, if_true]
  by_cases hge : (f.tokens.length : Int) ≥ num
  · rw [if_pos hge]
    have hb : num.toNat ≤ f.tokens.length := by omega
    have hcast : ((num.toNat : Nat) : Int) = num := Int.toNat_of_nonneg hnum
    have := headLoop_take f.tokens num num.toNat hb (by omega) num.toNat 0 (by omega)
      (by omega)
    rw [hcast] at this
    simp only [Nat.cast_zero, List.take_zero] at this
    rw [this, Nat.min_eq_left hb]
  · rw [if_neg hge]
    have hb : f.tokens.length ≤ num.toNat := by omega
    have := headLoop_take f.tokens num f.tokens.length (le_refl _) (by omega)
      f.tokens.length 0 (by omega) (by omega)
    simp only [Nat.cast_zero, List.take_zero] at this
    rw [this, Nat.min_eq_right hb]

/-- Tail direction on a readable file, for a count that `make` accepts: the
last `tailCount num len` lines, in file order. -/
theorem getLines_tail (maxAlloc : Nat) (fs : FileSystem) (num : Int) (path : String)
    (f : File) (hopen : fs path = .ok f) (hscan : f.scanErr = none)
    (hfit : capacityFits maxAlloc num) :
    getLines maxAlloc fs num false path
      = .ret ⟨lastN (tailCount num f.tokens.length) f.tokens, f.tokens.length, none⟩ := by
  have hloop := tailLoop_take f.tokens num f.tokens.length 0 (by omega) (by omega) (by omega)
  simp only [Nat.cast_zero, sub_zero, List.take_zero] at hloop
  simp only [getLines, hopen, hscan, scanAll_eq, List.nil_append,
    make_of_fits maxAlloc num hfit, Outcome.andThen, hloop, reverse_eq]
  simp [lastN, List.take_reverse]

theorem tailCount_pos (num : Int) (len : Nat) (h : 1 ≤ num) :
    tailCount num len = min num.toNat len := by
  unfold tailCount
  by_cases hc : num ≤ (len : Int)
  · rw [if_pos ⟨h, hc⟩, Nat.min_eq_left (by omega)]
  · rw [if_neg (by omega), Nat.min_eq_right (by omega)]

theorem tailCount_zero (len : Nat) : tailCount 0 len = len := by
  simp [tailCount]

/-! ## What `main` prints -/

theorem fails_false_iff (maxAlloc : Nat) (fs : FileSystem) (flags : Flags) (path : String) :
    fails maxAlloc fs flags path = false ↔
      ∃ lines total,
        getLines maxAlloc fs flags.n flags.head path = .ret ⟨lines, total, none⟩ := by
  unfold fails
  constructor
  · intro h
    split at h
    · next lines total heq => exact ⟨lines, total, heq⟩
    · exact absurd h (by decide)
  · rintro ⟨lines, total, heq⟩
    rw [heq]

theorem mainLoop_ok_step (maxAlloc : Nat) (fs : FileSystem) (flags : Flags) (arg : String)
    (rest stdout : List String) (h : fails maxAlloc fs flags arg = false) :
    mainLoop maxAlloc fs flags (arg :: rest) stdout
      = mainLoop maxAlloc fs flags rest (stdout ++ [block maxAlloc fs flags arg]) := by
  obtain ⟨lines, total, heq⟩ := (fails_false_iff maxAlloc fs flags arg).1 h
  simp only [mainLoop, block, heq]

theorem mainLoop_fail_step (maxAlloc : Nat) (fs : FileSystem) (flags : Flags) (arg : String)
    (rest stdout : List String) (h : fails maxAlloc fs flags arg = true) :
    ∃ m, mainLoop maxAlloc fs flags (arg :: rest) stdout = ⟨stdout, .panicked m⟩ := by
  unfold fails at h
  rw [mainLoop]
  split at h
  · exact absurd h (by decide)
  · next hne =>
    split
    · next m _ => exact ⟨m, rfl⟩
    · next err _ => exact ⟨err, rfl⟩
    · next lines total heq => exact absurd heq (hne lines total)

theorem mainLoop_all_ok (maxAlloc : Nat) (fs : FileSystem) (flags : Flags) :
    ∀ (args stdout : List String), (∀ q ∈ args, fails maxAlloc fs flags q = false) →
      mainLoop maxAlloc fs flags args stdout
        = ⟨stdout ++ args.map (block maxAlloc fs flags), .returned⟩ := by
  intro args
  induction args with
  | nil =>
    intro stdout _
    simp [mainLoop]
  | cons arg rest ih =>
    intro stdout h
    rw [mainLoop_ok_step maxAlloc fs flags arg rest stdout (h arg (List.mem_cons_self _ _)),
      ih _ (fun q hq => h q (List.mem_cons_of_mem _ hq))]
    simp

theorem mainLoop_first_failure (maxAlloc : Nat) (fs : FileSystem) (flags : Flags) :
    ∀ (pre : List String) (p : String) (post stdout : List String),
      (∀ q ∈ pre, fails maxAlloc fs flags q = false) → fails maxAlloc fs flags p = true →
      ∃ m, mainLoop maxAlloc fs flags (pre ++ p :: post) stdout
        = ⟨stdout ++ pre.map (block maxAlloc fs flags), .panicked m⟩ := by
  intro pre
  induction pre with
  | nil =>
    intro p post stdout _ hp
    simpa using mainLoop_fail_step maxAlloc fs flags p post stdout hp
  | cons arg rest ih =>
    intro p post stdout h hp
    obtain ⟨m, hm⟩ := ih p post (stdout ++ [block maxAlloc fs flags arg])
      (fun q hq => h q (List.mem_cons_of_mem _ hq)) hp
    refine ⟨m, ?_⟩
    rw [List.cons_append, mainLoop_ok_step maxAlloc fs flags arg _ stdout
      (h arg (List.mem_cons_self _ _)), hm]
    simp

theorem split_at_index (args : List String) (k : Nat) (p : String)
    (hk : args[k]? = some p) : args = args.take k ++ p :: args.drop (k + 1) := by
  have hlt : k < args.length := by
    by_contra hge
    rw [List.getElem?_eq_none (by omega)] at hk
    exact absurd hk (by simp)
  have hp : args[k] = p := by
    rw [List.getElem?_eq_getElem hlt] at hk
    exact Option.some.inj hk
  rw [← hp]
  simp

/-! ## The example files -/

theorem exampleFS_five :
    exampleFS "five.txt" = .ok ⟨["a", "b", "c", "d", "e"], none⟩ := by
  simp [exampleFS]

theorem exampleFS_empty : exampleFS "empty.txt" = .ok ⟨[], none⟩ := by
  simp [exampleFS]

theorem exampleFS_missing :
    exampleFS "missing.txt" = .error "open: no such file or directory" := by
  simp [exampleFS]

theorem capacityFits_three : capacityFits exampleMaxAlloc 3 := by
  unfold capacityFits stringSize exampleMaxAlloc
  norm_num

theorem capacityFits_ten : capacityFits exampleMaxAlloc 10 := by
  unfold capacityFits stringSize exampleMaxAlloc
  norm_num

/-! ## The claims -/

/-- C1 (fails at count 0): in the tail direction `getLines` with count 0 on the
file with lines a to e returns all five lines, whereas the last `min(0, 5)`
lines are none. -/
theorem getLines_tail_zero_returns_all (maxAlloc : Nat) :
    getLines maxAlloc exampleFS 0 false "five.txt"
        = .ret ⟨["a", "b", "c", "d", "e"], 5, none⟩ ∧
      lastN (min 0 5) ["a", "b", "c", "d", "e"] = [] := by
  refine ⟨?_, by simp [lastN]⟩
  have h := getLines_tail maxAlloc exampleFS 0 "five.txt" _ exampleFS_five rfl
    (capacityFits_zero maxAlloc)
  simpa [tailCount_zero, lastN] using h

/-- C2 (fails at a count too large for `make`): in the head direction `getLines`
with the count `maxInt` on the file with lines a to e panics in `make`, whereas
the first `min(maxInt, 5)` lines are the five lines of the file. -/
theorem getLines_head_maxInt_panics (maxAlloc : Nat) :
    getLines maxAlloc exampleFS maxInt true "five.txt"
        = .panic "makeslice: cap out of range" ∧
      0 ≤ maxInt ∧
      List.take (min maxInt.toNat 5) ["a", "b", "c", "d", "e"]
        = ["a", "b", "c", "d", "e"] := by
  refine ⟨getLines_not_fits maxAlloc exampleFS maxInt true "five.txt" _ exampleFS_five rfl
    (not_capacityFits_maxInt maxAlloc), by decide, ?_⟩
  simp [maxInt]

/-- C3 (fails at count 0, tail): on the file with lines a to e and count 0 the
tail direction returns 5 lines and total 5, so `len(lines)` is not
`min(count, total) = 0`. -/
theorem getLines_tail_zero_length (maxAlloc : Nat) :
    ∃ r, getLines maxAlloc exampleFS 0 false "five.txt" = .ret r ∧ r.total = 5 ∧
      (r.lines.length : Int) = 5 ∧ (r.lines.length : Int) ≠ min 0 r.total := by
  have h := getLines_tail maxAlloc exampleFS 0 "five.txt" _ exampleFS_five rfl
    (capacityFits_zero maxAlloc)
  refine ⟨_, h, ?_, ?_, ?_⟩ <;> simp [tailCount_zero, lastN]

/-- C4 (fails in the tail direction): with count 0 on the file with lines a to e
the head direction returns no line and total 5, but the tail direction returns
a non-empty line sequence. -/
theorem getLines_zero_tail_not_empty (maxAlloc : Nat) :
    getLines maxAlloc exampleFS 0 true "five.txt" = .ret ⟨[], 5, none⟩ ∧
      ∃ lines, getLines maxAlloc exampleFS 0 false "five.txt" = .ret ⟨lines, 5, none⟩ ∧
        lines ≠ [] := by
  constructor
  · have h := getLines_head maxAlloc exampleFS 0 "five.txt" _ exampleFS_five rfl
      (capacityFits_zero maxAlloc)
    simpa using h
  · have h := getLines_tail maxAlloc exampleFS 0 "five.txt" _ exampleFS_five rfl
      (capacityFits_zero maxAlloc)
    refine ⟨_, h, ?_⟩
    simp [tailCount_zero, lastN]

/-- C5 (fails at a count too large for `make`): the count `maxInt` exceeds the
total 5 of the file with lines a to e, and `getLines` panics in `make` in both
directions instead of returning the whole file. -/
theorem getLines_maxInt_exceeds_total_panics (maxAlloc : Nat) (head : Bool) :
    (5 : Int) < maxInt ∧
      getLines maxAlloc exampleFS maxInt head "five.txt"
        = .panic "makeslice: cap out of range" :=
  ⟨by decide, getLines_not_fits maxAlloc exampleFS maxInt head "five.txt" _ exampleFS_five
    rfl (not_capacityFits_maxInt maxAlloc)⟩

/-- C6 (fails at a count too large for `make`): on the file with lines a to e
`getLines` reports total 5 at count 0, but at the count `maxInt` it panics in
`make` and returns no total at all. -/
theorem getLines_total_maxInt_missing (maxAlloc : Nat) (head : Bool) :
    (∃ lines, getLines maxAlloc exampleFS 0 true "five.txt" = .ret ⟨lines, 5, none⟩) ∧
      0 ≤ maxInt ∧
      ∀ r, getLines maxAlloc exampleFS maxInt head "five.txt" ≠ .ret r := by
  refine ⟨⟨[], ?_⟩, by decide, ?_⟩
  · have h := getLines_head maxAlloc exampleFS 0 "five.txt" _ exampleFS_five rfl
      (capacityFits_zero maxAlloc)
    simpa using h
  · intro r h
    rw [getLines_not_fits maxAlloc exampleFS maxInt head "five.txt" _ exampleFS_five rfl
      (not_capacityFits_maxInt maxAlloc)] at h
    cases h

/-- C7 (fails at a count too large for `make`): on the empty file `getLines`
with the count `maxInt` panics in `make` in both directions instead of
returning no line, total 0 and a nil error. -/
theorem getLines_empty_file_maxInt_panics (maxAlloc : Nat) (head : Bool) :
    0 ≤ maxInt ∧
      getLines maxAlloc exampleFS maxInt head "empty.txt"
        = .panic "makeslice: cap out of range" :=
  ⟨by decide, getLines_not_fits maxAlloc exampleFS maxInt head "empty.txt" _ exampleFS_empty
    rfl (not_capacityFits_maxInt maxAlloc)⟩

/-- C8: `getLines` returns a non-nil error exactly when `os.Open` fails or the
scanner reports an error, for every count and direction; and whenever it
returns a non-nil error, the returned lines are empty and the total is 0,
whatever the scanner had delivered before failing. -/
theorem getLines_error_iff (maxAlloc : Nat) (fs : FileSystem) (num : Int) (head : Bool)
    (path : String) :
    ((∃ lines total e, getLines maxAlloc fs num head path = .ret ⟨lines, total, some e⟩) ↔
        ((∃ e, fs path = .error e) ∨ ∃ f e, fs path = .ok f ∧ f.scanErr = some e)) ∧
      ∀ lines total e, getLines maxAlloc fs num head path = .ret ⟨lines, total, some e⟩ →
        lines = [] ∧ total = 0 := by
  cases hopen : fs path with
  | error e0 =>
    rw [getLines_open_error maxAlloc fs num head path e0 hopen]
    refine ⟨⟨fun _ => Or.inl ⟨e0, rfl⟩, fun _ => ⟨[], 0, e0, rfl⟩⟩, ?_⟩
    intro lines total e h
    cases h
    exact ⟨rfl, rfl⟩
  | ok f =>
    cases hscan : f.scanErr with
    | some e0 =>
      rw [getLines_scan_error maxAlloc fs num head path f e0 hopen hscan]
      refine ⟨⟨fun _ => Or.inr ⟨f, e0, rfl, hscan⟩, fun _ => ⟨[], 0, e0, rfl⟩⟩, ?_⟩
      intro lines total e h
      cases h
      exact ⟨rfl, rfl⟩
    | none =>
      have hno : ∀ lines total e,
          getLines maxAlloc fs num head path ≠ .ret ⟨lines, total, some e⟩ := by
        intro lines total e h
        by_cases hfit : capacityFits maxAlloc num
        · cases head with
          | true =>
            rw [getLines_head maxAlloc fs num path f hopen hscan hfit] at h
            cases h
          | false =>
            rw [getLines_tail maxAlloc fs num path f hopen hscan hfit] at h
            cases h
        · rw [getLines_not_fits maxAlloc fs num head path f hopen hscan hfit] at h
          cases h
      refine ⟨⟨?_, ?_⟩, ?_⟩
      · rintro ⟨lines, total, e, h⟩
        exact absurd h (hno lines total e)
      · rintro (⟨e, he⟩ | ⟨g, e, hg, he⟩)
        · cases he
        · cases hg
          rw [hscan] at he
          cases he
      · intro lines total e h
        exact absurd h (hno lines total e)

/-- C10 (fails at a count too large for `make`): the count `maxInt` is not
negative, yet on the file with lines a to e `getLines` aborts in `make` in both
directions; a negative count aborts as well. -/
theorem getLines_aborts_at_maxInt (maxAlloc : Nat) (head : Bool) :
    0 ≤ maxInt ∧
      (∃ m, getLines maxAlloc exampleFS maxInt head "five.txt" = .panic m) ∧
      ∃ m, getLines maxAlloc exampleFS (-1) head "five.txt" = .panic m := by
  refine ⟨by decide, ⟨_, getLines_not_fits maxAlloc exampleFS maxInt head "five.txt" _
    exampleFS_five rfl (not_capacityFits_maxInt maxAlloc)⟩, ⟨_, getLines_not_fits maxAlloc
    exampleFS (-1) head "five.txt" _ exampleFS_five rfl ?_⟩⟩
  unfold capacityFits
  omega

/-- C9 as stated fails: with the help flag set and the readable path
`five.txt`, no path fails, yet standard output holds the usage text and not the
block of `five.txt`; and with no path at all standard output is not empty. -/
theorem main_help_prints_no_block :
    ((∀ q ∈ ["five.txt"],
          fails exampleMaxAlloc exampleFS ⟨true, 10, false, false, false⟩ q = false) ∧
        (main exampleMaxAlloc exampleFS ⟨true, 10, false, false, false⟩ ["five.txt"]).stdout
          ≠ ["five.txt"].map
              (block exampleMaxAlloc exampleFS ⟨true, 10, false, false, false⟩)) ∧
      (main exampleMaxAlloc exampleFS ⟨false, 10, false, false, false⟩ []).stdout
        ≠ ([] : List String).map
            (block exampleMaxAlloc exampleFS ⟨false, 10, false, false, false⟩) := by
  refine ⟨⟨?_, ?_⟩, ?_⟩
  · intro q hq
    simp only [List.mem_singleton] at hq
    subst hq
    rw [fails_false_iff]
    exact ⟨_, _, getLines_tail exampleMaxAlloc exampleFS 10 "five.txt" _ exampleFS_five rfl
      capacityFits_ten⟩
  · simp [main, printHelp]
  · simp [main, printHelp]

/-- C9 (amended): when the help flag is not set and at least one path is given,
if `getLines` fails first on the path at position `k`, standard output is
exactly the blocks of the paths at positions `0..k-1` in input order and the
run ends in a panic; if no path fails, standard output is one block per path in
input order and `main` returns. -/
theorem main_blocks_until_first_failure (maxAlloc : Nat) (fs : FileSystem) (flags : Flags)
    (args : List String) (hh : flags.h = false) (hne : args ≠ []) :
    (∀ (k : Nat) (p : String), args[k]? = some p →
        (∀ q ∈ args.take k, fails maxAlloc fs flags q = false) →
        fails maxAlloc fs flags p = true →
        ∃ m, main maxAlloc fs flags args
          = ⟨(args.take k).map (block maxAlloc fs flags), .panicked m⟩) ∧
      ((∀ q ∈ args, fails maxAlloc fs flags q = false) →
        main maxAlloc fs flags args = ⟨args.map (block maxAlloc fs flags), .returned⟩) := by
  have hlen : ¬ args.length = 0 := by
    intro h
    exact hne (List.length_eq_zero.mp h)
  have hmain : main maxAlloc fs flags args = mainLoop maxAlloc fs flags args [] := by
    simp [main, hh, hlen]
  rw [hmain]
  constructor
  · intro k p hk hpre hp
    obtain ⟨m, hm⟩ := mainLoop_first_failure maxAlloc fs flags (args.take k) p
      (args.drop (k + 1)) [] hpre hp
    rw [← split_at_index args k p hk] at hm
    exact ⟨m, by simpa using hm⟩
  · intro hall
    simpa using mainLoop_all_ok maxAlloc fs flags args [] hall

theorem getLines_five_tail3 :
    getLines exampleMaxAlloc exampleFS 3 false "five.txt"
      = .ret ⟨["c", "d", "e"], 5, none⟩ := by
  have h := getLines_tail exampleMaxAlloc exampleFS 3 "five.txt" _ exampleFS_five rfl
    capacityFits_three
  rw [tailCount_pos 3 _ (by decide)] at h
  simpa [lastN] using h

theorem write_five_tail3 :
    write ⟨false, 3, false, false, false⟩ "five.txt" false ["c", "d", "e"] 5
      = "File five.txt showing last 3 of 5 lines\nc\nd\ne\n" := by
  decide

theorem block_five_tail3 :
    block exampleMaxAlloc exampleFS ⟨false, 3, false, false, false⟩ "five.txt"
      = "File five.txt showing last 3 of 5 lines\nc\nd\ne\n" := by
  simp only [block, getLines_five_tail3, write_five_tail3]

theorem fails_five_tail3 :
    fails exampleMaxAlloc exampleFS ⟨false, 3, false, false, false⟩ "five.txt" = false := by
  simp only [fails, getLines_five_tail3]

theorem fails_missing_tail3 :
    fails exampleMaxAlloc exampleFS ⟨false, 3, false, false, false⟩ "missing.txt"
      = true := by
  simp only [fails,
    getLines_open_error exampleMaxAlloc exampleFS 3 false "missing.txt" _ exampleFS_missing]

/-- Witness of C9 (amended): with `five.txt`, a missing file and `five.txt`
again, only the block of the first path is printed and the run panics; with
`five.txt` twice, two blocks are printed and `main` returns. -/
theorem main_blocks_until_first_failure_witness :
    (∃ m, main exampleMaxAlloc exampleFS ⟨false, 3, false, false, false⟩
        ["five.txt", "missing.txt", "five.txt"]
        = ⟨["File five.txt showing last 3 of 5 lines\nc\nd\ne\n"], .panicked m⟩) ∧
      main exampleMaxAlloc exampleFS ⟨false, 3, false, false, false⟩
          ["five.txt", "five.txt"]
        = ⟨["File five.txt showing last 3 of 5 lines\nc\nd\ne\n",
            "File five.txt showing last 3 of 5 lines\nc\nd\ne\n"], .returned⟩ := by
  constructor
  · obtain ⟨m, hm⟩ := (main_blocks_until_first_failure exampleMaxAlloc exampleFS
      ⟨false, 3, false, false, false⟩ ["five.txt", "missing.txt", "five.txt"] rfl
      (by simp)).1 1 "missing.txt" rfl
      (by
        intro q hq
        simp only [List.take, List.mem_singleton] at hq
        subst hq
        exact fails_five_tail3)
      fails_missing_tail3
    refine ⟨m, ?_⟩
    rw [hm]
    simp only [List.take, List.map, block_five_tail3]
  · have h := (main_blocks_until_first_failure exampleMaxAlloc exampleFS
      ⟨false, 3, false, false, false⟩ ["five.txt", "five.txt"] rfl (by simp)).2
      (by
        intro q hq
        simp only [List.mem_cons, List.mem_singleton, List.not_mem_nil, or_false,
          or_self] at hq
        subst hq
        exact fails_five_tail3)
    rw [h]
    simp only [List.map, block_five_tail3]

/-! ## Further properties: counts that `make` accepts -/

/-- On a file whose scan delivers the lines `all` without error, `getLines` in
the head direction with a count that `make` accepts returns, with a nil error,
exactly the first `min(num, len(all))` lines of `all` in file order. -/
theorem getLines_head_first_lines (maxAlloc : Nat) (fs : FileSystem) (path : String)
    (all : List String) (num : Int) (hfile : fs path = .ok ⟨all, none⟩)
    (hfit : capacityFits maxAlloc num) :
    getLines maxAlloc fs num true path
      = .ret ⟨all.take (min num.toNat all.length), all.length, none⟩ :=
  getLines_head maxAlloc fs num path ⟨all, none⟩ hfile rfl hfit

/-- Lines a to e, count 3, head gives a, b, c and total 5. -/
theorem getLines_head_first_lines_witness :
    getLines exampleMaxAlloc exampleFS 3 true "five.txt"
      = .ret ⟨["a", "b", "c"], 5, none⟩ := by
  have h := getLines_head_first_lines exampleMaxAlloc exampleFS "five.txt"
    ["a", "b", "c", "d", "e"] 3 exampleFS_five capacityFits_three
  simpa using h

/-- On a file whose scan delivers the lines `all` without error, `getLines` in
the tail direction with a count `num ≥ 1` that `make` accepts returns, with a
nil error, exactly the last `min(num, len(all))` lines of `all` in file order. -/
theorem getLines_tail_last_lines (maxAlloc : Nat) (fs : FileSystem) (path : String)
    (all : List String) (num : Int) (hfile : fs path = .ok ⟨all, none⟩) (hnum : 1 ≤ num)
    (hfit : capacityFits maxAlloc num) :
    getLines maxAlloc fs num false path
      = .ret ⟨lastN (min num.toNat all.length) all, all.length, none⟩ := by
  rw [getLines_tail maxAlloc fs num path ⟨all, none⟩ hfile rfl hfit,
    tailCount_pos num all.length hnum]

/-- Lines a to e, count 3, tail gives c, d, e and total 5. -/
theorem getLines_tail_last_lines_witness :
    getLines exampleMaxAlloc exampleFS 3 false "five.txt"
      = .ret ⟨["c", "d", "e"], 5, none⟩ := by
  have h := getLines_tail_last_lines exampleMaxAlloc exampleFS "five.txt"
    ["a", "b", "c", "d", "e"] 3 exampleFS_five (by decide) capacityFits_three
  simpa [lastN] using h

/-- On a file whose scan delivers the lines `all` without error, `getLines` in
the tail direction with count 0 returns the whole of `all`. -/
theorem getLines_tail_zero_whole_file (maxAlloc : Nat) (fs : FileSystem) (path : String)
    (all : List String) (hfile : fs path = .ok ⟨all, none⟩) :
    getLines maxAlloc fs 0 false path = .ret ⟨all, all.length, none⟩ := by
  rw [getLines_tail maxAlloc fs 0 path ⟨all, none⟩ hfile rfl (capacityFits_zero maxAlloc),
    tailCount_zero]
  simp [lastN]

/-- Lines a to e, count 0, tail returns all five lines and total 5. -/
theorem getLines_tail_zero_whole_file_witness :
    getLines exampleMaxAlloc exampleFS 0 false "five.txt"
      = .ret ⟨["a", "b", "c", "d", "e"], (5 : Nat), none⟩ :=
  getLines_tail_zero_whole_file exampleMaxAlloc exampleFS "five.txt"
    ["a", "b", "c", "d", "e"] exampleFS_five

/-- On a readable file with lines `all` and for a count that `make` accepts,
the number of lines `getLines` returns is `min(num, len(all))` in the head
direction, and in the tail direction when `num ≥ 1`. -/
theorem getLines_length_min (maxAlloc : Nat) (fs : FileSystem) (path : String)
    (all : List String) (num : Int) (head : Bool) (hfile : fs path = .ok ⟨all, none⟩)
    (hfit : capacityFits maxAlloc num) (hdir : head = true ∨ 1 ≤ num) :
    ∃ lines, getLines maxAlloc fs num head path = .ret ⟨lines, all.length, none⟩ ∧
      lines.length = min num.toNat all.length := by
  cases head with
  | true =>
    refine ⟨_, getLines_head maxAlloc fs num path ⟨all, none⟩ hfile rfl hfit, ?_⟩
    simp [List.length_take]
  | false =>
    have h1 : 1 ≤ num := by
      rcases hdir with h | h
      · cases h
      · exact h
    refine ⟨_, getLines_tail maxAlloc fs num path ⟨all, none⟩ hfile rfl hfit, ?_⟩
    rw [tailCount_pos num all.length h1]
    simp [lastN]
    omega

/-- Lines a to e, count 3, tail: three lines are returned. -/
theorem getLines_length_min_witness :
    ∃ lines, getLines exampleMaxAlloc exampleFS 3 false "five.txt"
        = .ret ⟨lines, (5 : Nat), none⟩ ∧
      lines.length = min 3 5 :=
  getLines_length_min exampleMaxAlloc exampleFS "five.txt" ["a", "b", "c", "d", "e"] 3
    false exampleFS_five capacityFits_three (Or.inr (by decide))

/-- On a file whose scan delivers the lines `all` without error, `getLines`
with a count greater than `len(all)` that `make` accepts returns, in both
directions, a nil error, the whole of `all` in file order, and the total
`len(all)`. -/
theorem getLines_count_exceeds_total (maxAlloc : Nat) (fs : FileSystem) (path : String)
    (all : List String) (num : Int) (head : Bool) (hfile : fs path = .ok ⟨all, none⟩)
    (hgt : (all.length : Int) < num) (hfit : capacityFits maxAlloc num) :
    getLines maxAlloc fs num head path = .ret ⟨all, all.length, none⟩ := by
  cases head with
  | true =>
    rw [getLines_head maxAlloc fs num path ⟨all, none⟩ hfile rfl hfit]
    have : min num.toNat all.length = all.length := Nat.min_eq_right (by omega)
    simp [this]
  | false =>
    rw [getLines_tail maxAlloc fs num path ⟨all, none⟩ hfile rfl hfit]
    have : tailCount num all.length = all.length := by
      rw [tailCount_pos num all.length (by omega)]
      exact Nat.min_eq_right (by omega)
    simp [this, lastN]

/-- Lines a to e, count 10, tail gives all five lines, total 5. -/
theorem getLines_count_exceeds_total_witness :
    getLines exampleMaxAlloc exampleFS 10 false "five.txt"
      = .ret ⟨["a", "b", "c", "d", "e"], 5, none⟩ := by
  have h := getLines_count_exceeds_total exampleMaxAlloc exampleFS "five.txt"
    ["a", "b", "c", "d", "e"] 10 false exampleFS_five (by decide) capacityFits_ten
  simpa using h

/-- On a file whose scan delivers the lines `all` without error, `getLines`
returns the total `len(all)` for every count that `make` accepts and both
directions. -/
theorem getLines_total (maxAlloc : Nat) (fs : FileSystem) (path : String)
    (all : List String) (num : Int) (head : Bool) (hfile : fs path = .ok ⟨all, none⟩)
    (hfit : capacityFits maxAlloc num) :
    ∃ lines, getLines maxAlloc fs num head path = .ret ⟨lines, all.length, none⟩ := by
  cases head with
  | true => exact ⟨_, getLines_head maxAlloc fs num path ⟨all, none⟩ hfile rfl hfit⟩
  | false => exact ⟨_, getLines_tail maxAlloc fs num path ⟨all, none⟩ hfile rfl hfit⟩

/-- Lines a to e, count 3, tail reports total 5. -/
theorem getLines_total_witness :
    ∃ lines, getLines exampleMaxAlloc exampleFS 3 false "five.txt"
      = .ret ⟨lines, (5 : Nat), none⟩ :=
  getLines_total exampleMaxAlloc exampleFS "five.txt" ["a", "b", "c", "d", "e"] 3 false
    exampleFS_five capacityFits_three

/-- On an empty file (the scan delivers no line and no error) `getLines`
returns, for every count that `make` accepts and both directions, a nil error,
no line and total 0. -/
theorem getLines_empty_file (maxAlloc : Nat) (fs : FileSystem) (path : String) (num : Int)
    (head : Bool) (hfile : fs path = .ok ⟨[], none⟩) (hfit : capacityFits maxAlloc num) :
    getLines maxAlloc fs num head path = .ret ⟨[], 0, none⟩ := by
  cases head with
  | true =>
    rw [getLines_head maxAlloc fs num path ⟨[], none⟩ hfile rfl hfit]
    simp
  | false =>
    rw [getLines_tail maxAlloc fs num path ⟨[], none⟩ hfile rfl hfit]
    simp [lastN]

/-- The empty file with count 3, tail, and with count 0, head. -/
theorem getLines_empty_file_witness :
    getLines exampleMaxAlloc exampleFS 3 false "empty.txt" = .ret ⟨[], 0, none⟩ ∧
      getLines exampleMaxAlloc exampleFS 0 true "empty.txt" = .ret ⟨[], 0, none⟩ :=
  ⟨getLines_empty_file exampleMaxAlloc exampleFS "empty.txt" 3 false exampleFS_empty
      capacityFits_three,
    getLines_empty_file exampleMaxAlloc exampleFS "empty.txt" 0 true exampleFS_empty
      (capacityFits_zero exampleMaxAlloc)⟩

/-- On a readable file `getLines` returns (every slice access of the head loops,
the tail loop and the reversal is in range) exactly for the counts that `make`
accepts, and panics for every other count, negative or too large. -/
theorem getLines_returns_iff (maxAlloc : Nat) (fs : FileSystem) (path : String)
    (all : List String) (num : Int) (head : Bool) (hfile : fs path = .ok ⟨all, none⟩) :
    ((∃ r, getLines maxAlloc fs num head path = .ret r) ↔ capacityFits maxAlloc num) ∧
      ((∃ m, getLines maxAlloc fs num head path = .panic m) ↔
        ¬ capacityFits maxAlloc num) := by
  by_cases hfit : capacityFits maxAlloc num
  · have hret : ∃ r, getLines maxAlloc fs num head path = .ret r := by
      cases head with
      | true => exact ⟨_, getLines_head maxAlloc fs num path ⟨all, none⟩ hfile rfl hfit⟩
      | false => exact ⟨_, getLines_tail maxAlloc fs num path ⟨all, none⟩ hfile rfl hfit⟩
    refine ⟨⟨fun _ => hfit, fun _ => hret⟩, ⟨?_, fun h => absurd hfit h⟩⟩
    rintro ⟨m, hm⟩
    obtain ⟨r, hr⟩ := hret
    rw [hr] at hm
    cases hm
  · have hp := getLines_not_fits maxAlloc fs num head path ⟨all, none⟩ hfile rfl hfit
    refine ⟨⟨?_, fun h => absurd h hfit⟩, ⟨fun _ => hfit, fun _ => ⟨_, hp⟩⟩⟩
    rintro ⟨r, hr⟩
    rw [hp] at hr
    cases hr

/-- On the file with lines a to e, count 3 returns in the tail direction. -/
theorem getLines_returns_iff_witness :
    ∃ r, getLines exampleMaxAlloc exampleFS 3 false "five.txt" = .ret r :=
  (getLines_returns_iff exampleMaxAlloc exampleFS "five.txt" ["a", "b", "c", "d", "e"] 3
    false exampleFS_five).1.2 capacityFits_three

/-- The closure `reverse` returns, for every slice, the slice in reverse order
and never indexes out of range. -/
theorem reverse_returns_reversed (s : List String) : reverse s = .ret s.reverse :=
  reverse_eq s

end Tail
